import Mathlib

/-!
Shallow embedding of the TEI excerpt extractor (`extract_excerpts.py`) and a
verification of the location-resolution algorithm it implements.

The Python script walks parsed lxml element trees.  We model lxml nodes by the
inductive type `Node` below: ordinary elements carry their Clark-notation tag
(`{namespace-uri}localname`), their attributes in document order, their `text`
(the character data before the first child), their children and their `tail`
(the character data following the node's end tag).  Comments, processing
instructions and entity references are the non-element node kinds lxml's
iteration can yield; their `tag` attribute in lxml is not a string (it is a
factory function), which is what the `except`/`raise` branch of
`_first_lb_child_before_content` reacts to.  An lxml `_Entity` node reports
`"&name;"` as its `text`.

Python string operations are modelled on the character-list representation of
`String`: `str.endswith` is a suffix test, `str.strip()` drops leading and
trailing whitespace, `"".join` flattens, and truthiness of a string is
non-emptiness.  In the braces of Clark notation the characters `{` and `}` are
written with their `\x7b` / `\x7d` escapes throughout.
-/

/-- Python `str` truthiness: a string is truthy iff it is non-empty. -/
def pyTruthyStr (s : String) : Bool := !s.data.isEmpty

/-- Whitespace characters removed by Python's `str.strip()` (the ASCII ones,
which are the only ones appearing in this corpus). -/
def isPyWs (c : Char) : Bool :=
  c == ' ' || c == '\t' || c == '\n' || c == '\r' || c == '\x0b' || c == '\x0c'

/-- Python `str.strip()`: drop leading and trailing whitespace. -/
def pyStrip (s : String) : String :=
  ⟨((s.data.dropWhile isPyWs).reverse.dropWhile isPyWs).reverse⟩

/-- Python `"".join(texts)`. -/
def pyJoin (l : List String) : String := ⟨(l.map String.data).flatten⟩

/-- Python `str.endswith(pat)`. -/
def strEndsWith (s pat : String) : Bool := pat.data.isSuffixOf s.data

/-- Whether `pat` occurs at the head of `l`. -/
def startsWithCL : List Char → List Char → Bool
  | [], _ => true
  | _ :: _, [] => false
  | p :: ps, c :: cs => p == c && startsWithCL ps cs

/-- Whether `pat` occurs anywhere inside `l`. -/
def containsCL (pat : List Char) : List Char → Bool
  | [] => startsWithCL pat []
  | l@(_ :: cs) => if startsWithCL pat l then true else containsCL pat cs

/-- Python `pat in s` (substring containment), used to compare serialized
fragments against serialized markers. -/
def strContains (s pat : String) : Bool := containsCL pat.data s.data

/-- An lxml tree node.  `elem` is an ordinary element with Clark-notation tag;
`comment`, `procInstr` and `entity` are the node kinds whose `tag` is not a
string.  Every node kind carries its `tail` text. -/
inductive Node where
  | elem (tag : String) (attrs : List (String × String)) (text : Option String)
      (children : List Node) (tail : Option String)
  | comment (text : Option String) (tail : Option String)
  | procInstr (text : Option String) (tail : Option String)
  | entity (name : String) (tail : Option String)

/-- `node.tag` when it is a string (elements only); `none` for the node kinds
whose lxml `tag` is a function. -/
def tagOf : Node → Option String
  | .elem tag _ _ _ _ => some tag
  | _ => none

/-- `node.text` as Python sees it; an lxml `_Entity` reports `"&name;"`. -/
def textOfPy : Node → Option String
  | .elem _ _ t _ _ => t
  | .comment t _ => t
  | .procInstr t _ => t
  | .entity nm _ => some ("&" ++ nm ++ ";")

/-- `node.tail`. -/
def tailOf : Node → Option String
  | .elem _ _ _ _ t => t
  | .comment _ t => t
  | .procInstr _ t => t
  | .entity _ t => t

/-- The element children list (non-elements have none). -/
def childrenOf : Node → List Node
  | .elem _ _ _ cs _ => cs
  | _ => []

/-- `texts.append(node.text)` guarded by Python truthiness. -/
def truthyText : Option String → List String
  | some s => if pyTruthyStr s then [s] else []
  | none => []

mutual
/-- The `for node in elem.iter(): ... break` walk shared by
`text_before_first_lb` and `has_text_before_internal_lb`: visit the subtree in
document order, appending each visited node's `text` and `tail`, stopping at
the first node whose string tag ends in `"lb"`.  Returns the collected texts
and whether the walk was stopped by such a marker. -/
def collectTexts : Node → List String × Bool
  | .elem tag _ text children tail =>
    if strEndsWith tag "lb" then ([], true)
    else
      let own := truthyText text ++ truthyText tail
      let rest := collectTextsList children
      (own ++ rest.1, rest.2)
  | .comment text tail => (truthyText text ++ truthyText tail, false)
  | .procInstr text tail => (truthyText text ++ truthyText tail, false)
  | .entity nm tail => (truthyText (some ("&" ++ nm ++ ";")) ++ truthyText tail, false)

/-- Document-order walk of a child list with the early `break` propagated. -/
def collectTextsList : List Node → List String × Bool
  | [] => ([], false)
  | c :: cs =>
    let r := collectTexts c
    if r.2 then (r.1, true)
    else
      let rs := collectTextsList cs
      (r.1 ++ rs.1, rs.2)
end

/-- `text_before_first_lb(elem)`: join the texts collected before the first
internal line-break marker and strip whitespace. -/
def text_before_first_lb (element : Node) : String :=
  pyStrip (pyJoin (collectTexts element).1)

/-- `has_text_before_internal_lb(elem)` from `compute_location_for_seg`:
whether non-whitespace text occurs before the first internal `lb`. -/
def has_text_before_internal_lb (seg : Node) : Bool :=
  pyTruthyStr (text_before_first_lb seg)

/-- The exception escaping `_first_lb_child_before_content`: an
`AttributeError` raised by calling `.endswith` on a non-string tag (re-raised
after logging).  The payload records the offending entity's name. -/
inductive PyErr where
  | attributeError (info : String)

/-- The `for elem in element:` loop of `_first_lb_child_before_content`:
comments and processing instructions are skipped, structural markers
(`pb`/`note`/`milestone`) are skipped, the first `lb` child is returned, any
other element ends the search with `None`, and a node whose tag is not a
string (an entity) raises. -/
def firstLbChildLoop : List Node → Except PyErr (Option Node)
  | [] => .ok none
  | c :: cs =>
    match c with
    | .comment _ _ => firstLbChildLoop cs
    | .procInstr _ _ => firstLbChildLoop cs
    | .elem tag _ _ _ _ =>
      if strEndsWith tag "\x7dpb" || strEndsWith tag "\x7dnote"
          || strEndsWith tag "\x7dmilestone" then
        firstLbChildLoop cs
      else if strEndsWith tag "\x7dlb" then .ok (some c)
      else .ok none
    | .entity nm _ => .error (.attributeError nm)

/-- `_first_lb_child_before_content(element)`: `None` when there is text
before the first internal `lb`, otherwise the child-scan above. -/
def first_lb_child_before_content (element : Node) : Except PyErr (Option Node) :=
  if pyTruthyStr (text_before_first_lb element) then .ok none
  else firstLbChildLoop (childrenOf element)

/-- The TEI namespace URI (`ns` in the script). -/
def teiNs : String := "http://www.tei-c.org/ns/1.0"

/-- Clark-notation tag of a TEI element. -/
def teiTag (localName : String) : String := "\x7b" ++ teiNs ++ "\x7d" ++ localName

/-- Clark-notation key of the `xml:id` attribute. -/
def xmlIdKey : String := "\x7bhttp://www.w3.org/XML/1998/namespace\x7did"

mutual
/-- Document-order (pre-order) listing of a subtree, each node paired with its
path (list of child indices) from the given root path. -/
def preorder : Node → List Nat → List (List Nat × Node)
  | n@(.elem _ _ _ children _), p => (p, n) :: preorderChildren children p 0
  | n, p => [(p, n)]

/-- Pre-order listing of a child list starting at child index `i`. -/
def preorderChildren : List Node → List Nat → Nat → List (List Nat × Node)
  | [], _, _ => []
  | c :: cs, p, i => preorder c (p ++ [i]) ++ preorderChildren cs p (i + 1)
end

mutual
/-- Look up the node at a child-index path. -/
def subtreeAt : Node → List Nat → Option Node
  | n, [] => some n
  | .elem _ _ _ children _, i :: rest => subtreeAtList children i rest
  | _, _ :: _ => none

/-- Helper of `subtreeAt`: select the `i`-th child and continue. -/
def subtreeAtList : List Node → Nat → List Nat → Option Node
  | [], _, _ => none
  | c :: _, 0, rest => subtreeAt c rest
  | _ :: cs, i + 1, rest => subtreeAtList cs i rest
end

/-- `elem.attrib.get(key)`. -/
def attrGet (n : Node) (key : String) : Option String :=
  match n with
  | .elem _ attrs _ _ _ => (attrs.find? (fun kv => kv.1 == key)).map (fun kv => kv.2)
  | _ => none

/-- `seg.xpath("preceding::tei:lb[1]", ...)[0]`, the nearest `tei:lb` strictly
before the node at `segPath` in document order, excluding its ancestors (the
XPath `preceding` axis); `[1]` on this reverse axis selects the nearest such
marker.  The XPath test matches the exact TEI `lb` tag. -/
def precedingLb (root : Node) (segPath : List Nat) : Option Node :=
  let before := (preorder root []).takeWhile (fun pn => pn.1 != segPath)
  let cands := before.filter
    (fun pn => tagOf pn.2 == some (teiTag "lb") && !(pn.1.isPrefixOf segPath))
  (cands.getLast?).map (fun pn => pn.2)

/-- The `tei:lb` descendants of a segment in document order, the node set
underlying both `seg.xpath(".//tei:lb[1]")[0]` and
`seg.xpath(".//tei:lb[last()]")[-1]`. -/
def lbDescendants (seg : Node) : List Node :=
  ((preorder seg []).drop 1).filterMap
    (fun pn => if tagOf pn.2 == some (teiTag "lb") then some pn.2 else none)

/-- `seg.xpath(".//tei:lb[1]")[0]`: the first `tei:lb` descendant in document
order (the document-order-first element of the XPath result, which selects
each parent's first `lb` child). -/
def firstLbDesc (seg : Node) : Option Node := (lbDescendants seg).head?

/-- `seg.xpath(".//tei:lb[last()]")[-1]`: the last `tei:lb` descendant in
document order (the document-order-last element of the XPath result, which
selects each parent's last `lb` child). -/
def lastLbDesc (seg : Node) : Option Node := (lbDescendants seg).getLast?

/-- The starting-marker selection of `compute_location_for_seg`, up to the
point where `lb` is finally fixed: the candidate from
`_first_lb_child_before_content`, the text-before-marker override to the
nearest preceding `lb`, and the fallbacks of the `if lb is None:` branch.
`prevLb` is the (lazily evaluated in Python, here precomputed) result of the
`preceding::tei:lb[1]` query. -/
def resolveStartLb (seg : Node) (prevLb : Option Node) : Except PyErr (Option Node) := do
  let lb0 ← first_lb_child_before_content seg
  let textBefore := has_text_before_internal_lb seg
  let lb1 :=
    if textBefore && lb0.isSome then
      match prevLb with
      | some p => some p
      | none => lb0
    else lb0
  match lb1 with
  | some l => pure (some l)
  | none =>
    if textBefore then pure prevLb
    else
      match firstLbDesc seg with
      | some f => pure (some f)
      | none => pure prevLb

/-- `lb.attrib.get("n") if lb is not None else ""`: `none` models Python
`None` (an `lb` without an `n` attribute); an absent marker yields `""`. -/
def lbNOpt : Option Node → Option String
  | some l => attrGet l "n"
  | none => some ""

/-- The end label: `last_lb[-1].attrib.get('n') if last_lb else ""`. -/
def lastLbNOpt (seg : Node) : Option String :=
  match lastLbDesc seg with
  | some l => attrGet l "n"
  | none => some ""

/-- Python falsiness of a label: `None` or the empty string. -/
def pyFalsy : Option String → Bool
  | none => true
  | some s => !pyTruthyStr s

/-- The final label composition of `compute_location_for_seg` (its last five
`return` statements), on the possibly-`None` start and end labels. -/
def pyCompose (lb_n last_lb_n : Option String) : String :=
  if pyFalsy last_lb_n && pyFalsy lb_n then ""
  else if pyFalsy lb_n then last_lb_n.getD ""
  else if pyFalsy last_lb_n then lb_n.getD ""
  else if lb_n != last_lb_n then lb_n.getD "" ++ " - " ++ last_lb_n.getD ""
  else lb_n.getD ""

/-- `compute_location_for_seg(seg)` on the segment node `seg` whose document
context supplies `prevLb` as the nearest preceding `tei:lb`. -/
def compute_location_core (seg : Node) (prevLb : Option Node) : Except PyErr String := do
  let lbF ← resolveStartLb seg prevLb
  pure (pyCompose (lbNOpt lbF) (lastLbNOpt seg))

/-- `compute_location_for_seg` on the segment at path `segPath` of the parsed
document `root` (the path fixes the segment's position, which the Python code
reads off the node's tree links). -/
def compute_location_for_seg (root : Node) (segPath : List Nat) : Except PyErr String :=
  match subtreeAt root segPath with
  | some seg => compute_location_core seg (precedingLb root segPath)
  | none => .ok ""

/-- Prefix test on strings, used for Clark-notation namespace splitting. -/
def strStartsWith (s pat : String) : Bool := pat.data.isPrefixOf s.data

/-- Drop a leading Clark-notation namespace wrapper from a tag, producing the
name lxml's serializer prints: TEI-namespace tags print their local name (the
namespace is declared on the fragment root), `xml:`-namespace attribute keys
print with the reserved `xml:` prefix. -/
def unclarkTag (t : String) : String :=
  let teiBrace := "\x7b" ++ teiNs ++ "\x7d"
  let xmlBrace := "\x7bhttp://www.w3.org/XML/1998/namespace\x7d"
  if strStartsWith t teiBrace then ⟨t.data.drop teiBrace.data.length⟩
  else if strStartsWith t xmlBrace then "xml:" ++ ⟨t.data.drop xmlBrace.data.length⟩
  else t

/-- XML text-content escaping as `etree.tostring` performs it. -/
def escText (s : String) : String :=
  ⟨s.data.flatMap (fun c =>
    if c == '&' then "&amp;".data
    else if c == '<' then "&lt;".data
    else if c == '>' then "&gt;".data
    else [c])⟩

/-- XML attribute-value escaping as `etree.tostring` performs it. -/
def escAttr (s : String) : String :=
  ⟨s.data.flatMap (fun c =>
    if c == '&' then "&amp;".data
    else if c == '<' then "&lt;".data
    else if c == '"' then "&quot;".data
    else [c])⟩

/-- Serialized attribute list, in document order. -/
def serializeAttrs (attrs : List (String × String)) : String :=
  pyJoin (attrs.map (fun kv => " " ++ unclarkTag kv.1 ++ "=\"" ++ escAttr kv.2 ++ "\""))

/-- The `xmlns` declaration `etree.tostring` re-emits on the root of a
serialized TEI-namespace fragment. -/
def xmlnsDecl : String := " xmlns=\"" ++ teiNs ++ "\""

mutual
/-- `etree.tostring(node, encoding="unicode", method="xml")` for the
single-namespace trees of this corpus: the fragment root re-declares the TEI
namespace when it lies in it; an element with neither text nor children
self-closes; `with_tail=False` corresponds to `withTail := false`. -/
def serializeNode (isRoot withTail : Bool) : Node → String
  | .elem tag attrs text children tail =>
    let nm := unclarkTag tag
    let nsd := if isRoot && strStartsWith tag ("\x7b" ++ teiNs ++ "\x7d") then xmlnsDecl else ""
    let inner := (match text with | some t => escText t | none => "") ++ serializeChildren children
    let tl := if withTail then (match tail with | some t => escText t | none => "") else ""
    if text == none && children.isEmpty then
      "<" ++ nm ++ nsd ++ serializeAttrs attrs ++ "/>" ++ tl
    else
      "<" ++ nm ++ nsd ++ serializeAttrs attrs ++ ">" ++ inner ++ "</" ++ nm ++ ">" ++ tl
  | .comment text tail =>
    "<!--" ++ text.getD "" ++ "-->" ++ (if withTail then (tailOf (.comment text tail)).getD "" else "")
  | .procInstr text tail =>
    "<?" ++ text.getD "" ++ "?>" ++ (if withTail then tail.getD "" else "")
  | .entity nm tail =>
    "&" ++ nm ++ ";" ++ (if withTail then tail.getD "" else "")

/-- Serialize a child list; children always include their tails. -/
def serializeChildren : List Node → String
  | [] => ""
  | c :: cs => serializeNode false true c ++ serializeChildren cs
end

/-- One output row of the extractor (one per excerpt segment).  `xml_id` and
`status` keep Python's `None` for absent attributes (rendered as empty cells
only at the tabular-export stage, which is outside this component). -/
structure Record where
  source : String
  tibschol_refs : String
  zotero_refs : String
  xml_id : Option String
  status : Option String
  location : String
  xml_content : String

/-- `//tei:seg[@type="excerpt"]`: every excerpt segment of the document with
its path, in document order. -/
def isExcerptSeg (n : Node) : Bool :=
  tagOf n == some (teiTag "seg") && attrGet n "type" == some "excerpt"

/-- The excerpt segments of a document in document order. -/
def excerptSegs (root : Node) : List (List Nat × Node) :=
  (preorder root []).filter (fun pn => isExcerptSeg pn.2)

/-- The direct text-node children of an element (`text()` in XPath): its
`text` followed by each child's `tail`. -/
def directTexts (n : Node) : List String :=
  truthyText (textOfPy n) ++ (childrenOf n).flatMap (fun c => truthyText (tailOf c))

/-- `//tei:idno[@type=ty]/text()`: the reference identifiers of a document. -/
def idnoTexts (root : Node) (ty : String) : List String :=
  ((preorder root []).filter
    (fun pn => tagOf pn.2 == some (teiTag "idno") && attrGet pn.2 "type" == some ty)).flatMap
    (fun pn => directTexts pn.2)

/-- Deduplication keeping first occurrences.  Python builds a `set` here, whose
iteration order is unspecified; the claims under verification do not depend on
the order, only on the deduplicated contents. -/
def dedupKeepFirst : List String → List String → List String
  | [], _ => []
  | x :: xs, seen => if seen.contains x then dedupKeepFirst xs seen else x :: dedupKeepFirst xs (x :: seen)

/-- `"\n".join(set(refs))` up to the unspecified set order. -/
def joinRefs (xs : List String) : String :=
  String.intercalate "\n" (dedupKeepFirst xs [])

/-- The record `process_tei_files` appends for one excerpt segment: attributes
are read off the segment, the location is supplied by the resolver, and
`xml_content` wraps the minified serialized segment in a fixed TEI root. -/
def mkRecord (source : String) (root : Node) (pn : List Nat × Node) (location : String) : Record :=
  { source := source
  , tibschol_refs := joinRefs (idnoTexts root "TibSchol")
  , zotero_refs := joinRefs (idnoTexts root "Zotero")
  , xml_id := attrGet pn.2 xmlIdKey
  , status := attrGet pn.2 "status"
  , location := location
  , xml_content := "<TEI xmlns='http://www.tei-c.org/ns/1.0'>"
      ++ pyStrip (serializeNode true false pn.2) ++ "</TEI>" }

/-- The per-segment loop of `process_tei_files` over one document: compute the
location (a raised resolution failure propagates), assemble the record, and
continue with the remaining segments. -/
def collectRecords (source : String) (root : Node) : List (List Nat × Node) → Except PyErr (List Record)
  | [] => .ok []
  | pn :: rest => do
    let location ← compute_location_core pn.2 (precedingLb root pn.1)
    let rs ← collectRecords source root rest
    pure (mkRecord source root pn location :: rs)

/-- Processing of one successfully parsed document: one record per excerpt
segment, in document order. -/
def processDoc (source : String) (root : Node) : Except PyErr (List Record) :=
  collectRecords source root (excerptSegs root)

/-- `process_tei_files(tei_repo)` over the parse results of the input files:
a file whose parse failed (`none`) is reported and skipped; a resolution
failure inside a document propagates out of the whole loop, discarding all
accumulated records. -/
def process_tei_files : List (String × Option Node) → Except PyErr (List Record)
  | [] => .ok []
  | (_, none) :: rest => process_tei_files rest
  | (source, some root) :: rest => do
    let rs ← processDoc source root
    let rest2 ← process_tei_files rest
    pure (rs ++ rest2)

/-- The `lb n="10"` marker of the text-before-marker test document. -/
def lbTen : Node := .elem (teiTag "lb") [("n", "10")] none [] (some "\n    ")

/-- The internal `lb n="11"` marker of the same document. -/
def lbEleven : Node := .elem (teiTag "lb") [("n", "11")] none [] (some " more text")

/-- The segment of `test_preceding_lb_used_when_seg_starts_with_text`. -/
def segTextFirst : Node :=
  .elem (teiTag "seg") [("type", "excerpt"), (xmlIdKey, "s1")]
    (some "This starts text ") [lbEleven] (some "\n    ")

/-- The document of `test_preceding_lb_used_when_seg_starts_with_text`:
`lb n="10"` followed by a segment that begins with text. -/
def docTextFirst : Node :=
  .elem (teiTag "TEI") [] (some "\n    ") [lbTen, segTextFirst] none

/-- The internal `lb n="21"` marker of the milestone test document. -/
def lbTwentyOne : Node := .elem (teiTag "lb") [("n", "21")] none [] (some "content")

/-- The segment of `test_preceding_lb_used_when_seg_starts_with_milestone`. -/
def segMilestoneFirst : Node :=
  .elem (teiTag "seg") [("type", "excerpt"), (xmlIdKey, "s2")] none
    [.elem (teiTag "milestone") [("unit", "section"), ("n", "X")] none [] none, lbTwentyOne]
    (some "\n    ")

/-- The document of `test_preceding_lb_used_when_seg_starts_with_milestone`. -/
def docMilestoneFirst : Node :=
  .elem (teiTag "TEI") [] (some "\n    ")
    [.elem (teiTag "lb") [("n", "20")] none [] (some "\n    "), segMilestoneFirst] none

/-- The segment of `test_no_lbs_returns_empty`. -/
def segNoLbs : Node :=
  .elem (teiTag "seg") [("type", "excerpt"), (xmlIdKey, "s3")]
    (some "no line breaks here") [] (some "\n    ")

/-- The document of `test_no_lbs_returns_empty`. -/
def docNoLbs : Node :=
  .elem (teiTag "TEI") [] (some "\n    ") [segNoLbs] none

/-- The single marker of `test_single_lb_returns_single_n`. -/
def lbFive : Node := .elem (teiTag "lb") [("n", "5")] none [] none

/-- The standalone segment of `test_single_lb_returns_single_n` (it is parsed
as its own root, so no marker precedes it). -/
def segSingleLb : Node := .elem (teiTag "seg") [] none [lbFive] none

/-- A marker with an `edRef` edition discriminator. -/
def lbEd (nv ed : String) (tl : Option String) : Node :=
  .elem (teiTag "lb") [("n", nv), ("edRef", ed)] none [] tl

/-- The segment of `test_group_ranges_by_edref_with_preceding_lb`: leading
text, two markers of edition `inst:5591`, then two of edition `inst:OTHER`. -/
def segEdRef : Node :=
  .elem (teiTag "seg") [("type", "excerpt"), (xmlIdKey, "s4")]
    (some "prefix text ")
    [lbEd "1b1" "inst:5591" (some " "), lbEd "1b2" "inst:5591" (some " "),
     lbEd "2a1" "inst:OTHER" (some " "), lbEd "2a2" "inst:OTHER" none]
    (some "\n    ")

/-- The document of `test_group_ranges_by_edref_with_preceding_lb`: it is
preceded by `lb n="1b4" edRef="inst:5591"`. -/
def docEdRef : Node :=
  .elem (teiTag "TEI") [] (some "\n    ")
    [lbEd "1b4" "inst:5591" (some "\n    "), segEdRef] none

/-- A segment whose resolution raises: its first child is a transparent `note`
containing an `lb` (so the text walk stops before reaching any text), and the
next child is an entity reference, whose non-string tag makes the child scan
of `_first_lb_child_before_content` raise `AttributeError`. -/
def segRaising : Node :=
  .elem (teiTag "seg") [("type", "excerpt"), (xmlIdKey, "b1")] none
    [.elem (teiTag "note") [] none [.elem (teiTag "lb") [("n", "1")] none [] none] none,
     .entity "broken" none]
    none

/-- A well-formed excerpt segment appearing after the raising one. -/
def segAfterRaise : Node :=
  .elem (teiTag "seg") [("type", "excerpt"), (xmlIdKey, "g1")] none
    [.elem (teiTag "lb") [("n", "2")] none [] none] none

/-- A document whose first excerpt segment raises and whose second is fine. -/
def docRaising : Node :=
  .elem (teiTag "TEI") [] none [segRaising, segAfterRaise] none

/-- A later, entirely well-formed document. -/
def docAfterRaise : Node :=
  .elem (teiTag "TEI") [] none
    [.elem (teiTag "seg") [("type", "excerpt"), (xmlIdKey, "g2")] none
      [.elem (teiTag "lb") [("n", "3")] none [] none] none] none

/-- A segment with leading text, an internal `lb n="7"`, and no marker
anywhere before it in its document. -/
def segTextNoPreceding : Node :=
  .elem (teiTag "seg") [("type", "excerpt"), (xmlIdKey, "c9s")]
    (some "leading ") [.elem (teiTag "lb") [("n", "7")] none [] none] none

/-- A document containing only `segTextNoPreceding`. -/
def docTextNoPreceding : Node :=
  .elem (teiTag "TEI") [] none [segTextNoPreceding] none

/-- The label-composition rule as the specification states it: empty when both
labels are absent, the non-empty one when exactly one is absent, the single
label when they agree, and `"start - end"` when they differ.  This is the
spec-side counterpart of `pyCompose`, to be compared with it. -/
def claimCompose (s e : Option String) : String :=
  if pyFalsy s && pyFalsy e then ""
  else if pyFalsy s then e.getD ""
  else if pyFalsy e then s.getD ""
  else if s == e then s.getD ""
  else s.getD "" ++ " - " ++ e.getD ""

/-- A child the scan of `_first_lb_child_before_content` steps over: a
comment, a processing instruction, or a structural marker element
(`pb`/`note`/`milestone`). -/
def isTransparentChild : Node → Bool
  | .comment _ _ => true
  | .procInstr _ _ => true
  | .elem tag _ _ _ _ =>
    strEndsWith tag "\x7dpb" || strEndsWith tag "\x7dnote" || strEndsWith tag "\x7dmilestone"
  | .entity _ _ => false

/-- A child the scan returns as the starting candidate: an `lb` element that
is not also classified as a structural marker. -/
def isLbStartChild : Node → Bool
  | .elem tag _ _ _ _ =>
    !(strEndsWith tag "\x7dpb" || strEndsWith tag "\x7dnote" || strEndsWith tag "\x7dmilestone")
      && strEndsWith tag "\x7dlb"
  | _ => false

/-- An entity-reference node (the one child kind whose lxml tag is neither a
string nor a comment/processing-instruction sentinel). -/
def isEntityNode : Node → Bool
  | .entity _ _ => true
  | _ => false

mutual
/-- No node of the subtree carries a string tag ending in `"lb"`; this is the
marker test used by the text walk, and it subsumes the absence of TEI `lb`
descendants. -/
def lbFree : Node → Bool
  | .elem tag _ _ children _ => !strEndsWith tag "lb" && lbFreeList children
  | _ => true

/-- `lbFree` on every node of a list of subtrees. -/
def lbFreeList : List Node → Bool
  | [] => true
  | c :: cs => lbFree c && lbFreeList cs
end

/-- The resolver as a state-passing computation: the Python function only ever
reads the tree (attribute lookups, XPath queries, text walks) and performs no
assignment to any element, text or tail, so the document component of the
state is returned unchanged. -/
def compute_location_call (root : Node) (p : List Nat) : Except PyErr String × Node :=
  (compute_location_for_seg root p, root)

/-- The record the collector emits for the text-before-marker document. -/
def recordTextFirst : Record := mkRecord "f.xml" docTextFirst ([1], segTextFirst) "10 - 11"

/-- The code's label composition coincides with the spec's four-case rule. -/
theorem pyCompose_eq_claimCompose (s e : Option String) : pyCompose s e = claimCompose s e := by
  unfold pyCompose claimCompose
  cases hs : pyFalsy s <;> cases he : pyFalsy e <;> simp [hs, he]

/-- The child scan steps over any run of transparent children. -/
theorem firstLbChildLoop_append_transparent (pre rest : List Node)
    (h : ∀ c ∈ pre, isTransparentChild c = true) :
    firstLbChildLoop (pre ++ rest) = firstLbChildLoop rest := by
  induction pre with
  | nil => rfl
  | cons c cs ih =>
    have hc := h c (List.mem_cons_self c cs)
    have hcs : ∀ x ∈ cs, isTransparentChild x = true :=
      fun x hx => h x (List.mem_cons_of_mem c hx)
    cases c with
    | comment t tl => simpa [firstLbChildLoop] using ih hcs
    | procInstr t tl => simpa [firstLbChildLoop] using ih hcs
    | elem tag attrs t ch tl =>
      have : (strEndsWith tag "\x7dpb" || strEndsWith tag "\x7dnote"
          || strEndsWith tag "\x7dmilestone") = true := by
        simpa [isTransparentChild] using hc
      simpa [firstLbChildLoop, this] using ih hcs
    | entity nm tl => simp [isTransparentChild] at hc

/-- The child scan returns the first `lb` child it reaches. -/
theorem firstLbChildLoop_lb (lbc : Node) (rest : List Node)
    (h : isLbStartChild lbc = true) :
    firstLbChildLoop (lbc :: rest) = .ok (some lbc) := by
  cases lbc with
  | elem tag attrs t ch tl =>
    have h2 := h
    simp only [isLbStartChild, Bool.and_eq_true, Bool.not_eq_true'] at h2
    simp [firstLbChildLoop, h2.1, h2.2]
  | comment t tl => simp [isLbStartChild] at h
  | procInstr t tl => simp [isLbStartChild] at h
  | entity nm tl => simp [isLbStartChild] at h

mutual
/-- On an `lb`-free subtree the text walk is never stopped by a marker. -/
theorem collectTexts_no_break : ∀ n, lbFree n = true → (collectTexts n).2 = false
  | .elem tag attrs text children tl, h => by
    obtain ⟨h1, h2⟩ := (by simpa [lbFree] using h : _ ∧ _)
    have hrec := collectTextsList_no_break children h2
    simp [collectTexts, h1, hrec]
  | .comment _ _, _ => rfl
  | .procInstr _ _, _ => rfl
  | .entity _ _, _ => rfl

/-- List version of `collectTexts_no_break`. -/
theorem collectTextsList_no_break : ∀ cs, lbFreeList cs = true → (collectTextsList cs).2 = false
  | [], _ => rfl
  | c :: cs, h => by
    obtain ⟨h1, h2⟩ := (by simpa [lbFreeList] using h : _ ∧ _)
    have hc := collectTexts_no_break c h1
    have hcs := collectTextsList_no_break cs h2
    simp [collectTextsList, hc, hcs]
end

/-- The `"&name;"` text of an entity reference contains its ampersand. -/
theorem amp_mem_entity_text (nm : String) : '&' ∈ ("&" ++ nm ++ ";").data := by
  rw [String.data_append, String.data_append]
  exact List.mem_append_left _ (List.mem_append_left _ (List.mem_singleton.mpr rfl))

/-- The `"&name;"` text of an entity reference is truthy. -/
theorem pyTruthyStr_entity_text (nm : String) : pyTruthyStr ("&" ++ nm ++ ";") = true := by
  have h := amp_mem_entity_text nm
  unfold pyTruthyStr
  cases hd : ("&" ++ nm ++ ";").data with
  | nil => rw [hd] at h; cases h
  | cons a l => rfl

/-- The texts collected from an `lb`-free child list include the `"&name;"`
text of any entity reference among the children. -/
theorem entity_mem_collectTextsList (cs : List Node) (nm : String) (etl : Option String)
    (hfree : lbFreeList cs = true) (hmem : Node.entity nm etl ∈ cs) :
    ("&" ++ nm ++ ";") ∈ (collectTextsList cs).1 := by
  induction cs with
  | nil => cases hmem
  | cons c cs ih =>
    obtain ⟨h1, h2⟩ := (by simpa [lbFreeList] using hfree : _ ∧ _)
    have hcnb := collectTexts_no_break c h1
    rcases List.mem_cons.mp hmem with hc | hc
    · subst hc
      simp [collectTextsList, hcnb, collectTexts, truthyText, pyTruthyStr_entity_text]
    · have hrec := ih h2 hc
      simp only [collectTextsList, hcnb, if_neg (by simp [hcnb] : ¬(collectTexts c).2 = true)]
      exact List.mem_append_right _ hrec

/-- A non-whitespace member survives a whitespace `dropWhile`. -/
theorem mem_dropWhile_of_not_ws (l : List Char) (c : Char) (hc : c ∈ l)
    (hw : isPyWs c = false) : c ∈ l.dropWhile isPyWs := by
  have hsplit : c ∈ l.takeWhile isPyWs ++ l.dropWhile isPyWs := by
    rw [List.takeWhile_append_dropWhile isPyWs l]; exact hc
  rcases List.mem_append.mp hsplit with h | h
  · have := List.mem_takeWhile_imp h
    rw [hw] at this
    cases this
  · exact h

/-- A string containing a non-whitespace character strips to a truthy string. -/
theorem pyTruthyStr_pyStrip_of_mem (s : String) (c : Char) (hc : c ∈ s.data)
    (hw : isPyWs c = false) : pyTruthyStr (pyStrip s) = true := by
  have h1 := mem_dropWhile_of_not_ws s.data c hc hw
  have h2 : c ∈ (s.data.dropWhile isPyWs).reverse := List.mem_reverse.mpr h1
  have h3 := mem_dropWhile_of_not_ws _ c h2 hw
  have h4 : c ∈ ((s.data.dropWhile isPyWs).reverse.dropWhile isPyWs).reverse :=
    List.mem_reverse.mpr h3
  unfold pyTruthyStr pyStrip
  cases hd : ((s.data.dropWhile isPyWs).reverse.dropWhile isPyWs).reverse with
  | nil => rw [hd] at h4; cases h4
  | cons a l => rfl

/-- An entity reference among the children of an `lb`-free element forces the
text-before-marker test to come out true (its `"&name;"` text is collected and
survives the strip). -/
theorem has_text_of_entity_child (tag : String) (attrs : List (String × String))
    (text : Option String) (children : List Node) (tl0 : Option String)
    (nm : String) (etl : Option String)
    (hfree : lbFree (.elem tag attrs text children tl0) = true)
    (hmem : Node.entity nm etl ∈ children) :
    has_text_before_internal_lb (.elem tag attrs text children tl0) = true := by
  obtain ⟨h1, h2⟩ := (by simpa [lbFree] using hfree : _ ∧ _)
  have hmemtxt := entity_mem_collectTextsList children nm etl h2 hmem
  have hseg : ("&" ++ nm ++ ";") ∈ (collectTexts (.elem tag attrs text children tl0)).1 := by
    simp [collectTexts, h1]
    tauto
  have hamp : '&' ∈ (pyJoin (collectTexts (.elem tag attrs text children tl0)).1).data := by
    unfold pyJoin
    exact List.mem_flatten.mpr
      ⟨("&" ++ nm ++ ";").data, List.mem_map_of_mem _ hseg, amp_mem_entity_text nm⟩
  unfold has_text_before_internal_lb text_before_first_lb
  exact pyTruthyStr_pyStrip_of_mem _ '&' hamp (by decide)

/-- A tag ending in `"}lb"` also ends in `"lb"` (the test used by the text
walk subsumes the namespaced test used by the child scan). -/
theorem strEndsWith_lb_of_brace (t : String) (h : strEndsWith t "\x7dlb" = true) :
    strEndsWith t "lb" = true := by
  unfold strEndsWith at h ⊢
  have h1 : "\x7dlb".data <:+ t.data := List.isSuffixOf_iff_suffix.mp h
  have h2 : "lb".data <:+ "\x7dlb".data := ⟨['\x7d'], rfl⟩
  exact List.isSuffixOf_iff_suffix.mpr (h2.trans h1)

/-- On an `lb`-free, entity-free child list the child scan reports no
candidate and no error. -/
theorem firstLbChildLoop_ok_none (cs : List Node)
    (hfree : lbFreeList cs = true)
    (hent : ∀ nm etl, Node.entity nm etl ∈ cs → False) :
    firstLbChildLoop cs = .ok none := by
  induction cs with
  | nil => rfl
  | cons c cs ih =>
    obtain ⟨h1, h2⟩ := (by simpa [lbFreeList] using hfree : _ ∧ _)
    have ih2 := ih h2 (fun nm etl hm => hent nm etl (List.mem_cons_of_mem c hm))
    cases c with
    | comment t tl => simpa [firstLbChildLoop] using ih2
    | procInstr t tl => simpa [firstLbChildLoop] using ih2
    | elem tag attrs t ch tl =>
      obtain ⟨hl, _⟩ := (by simpa [lbFree] using h1 : _ ∧ _)
      have hnl : strEndsWith tag "\x7dlb" = false := by
        cases hq : strEndsWith tag "\x7dlb" with
        | false => rfl
        | true => rw [strEndsWith_lb_of_brace tag hq] at hl; cases hl
      by_cases htr : (strEndsWith tag "\x7dpb" || strEndsWith tag "\x7dnote"
          || strEndsWith tag "\x7dmilestone") = true
      · simpa [firstLbChildLoop, htr] using ih2
      · simp [firstLbChildLoop, htr, hnl]
    | entity nm tl => exact (hent nm tl (List.mem_cons_self _ _)).elim

mutual
/-- Every node listed by `preorder` on an `lb`-free subtree is `lb`-free. -/
theorem preorder_lbFree : ∀ (n : Node) (p : List Nat), lbFree n = true →
    ∀ pn ∈ preorder n p, lbFree pn.2 = true
  | .elem tag attrs text children tl, p, h, pn, hm => by
    obtain ⟨h1, h2⟩ := (by simpa [lbFree] using h : _ ∧ _)
    rcases List.mem_cons.mp (by simpa [preorder] using hm) with h0 | h0
    · rw [h0]; exact h
    · exact preorderChildren_lbFree children p 0 h2 pn h0
  | .comment t tl, p, h, pn, hm => by
    rcases List.mem_singleton.mp (by simpa [preorder] using hm) with h0
    rw [h0]; exact h
  | .procInstr t tl, p, h, pn, hm => by
    rcases List.mem_singleton.mp (by simpa [preorder] using hm) with h0
    rw [h0]; exact h
  | .entity nm tl, p, h, pn, hm => by
    rcases List.mem_singleton.mp (by simpa [preorder] using hm) with h0
    rw [h0]; exact h

/-- List version of `preorder_lbFree`. -/
theorem preorderChildren_lbFree : ∀ (cs : List Node) (p : List Nat) (i : Nat),
    lbFreeList cs = true → ∀ pn ∈ preorderChildren cs p i, lbFree pn.2 = true
  | [], _, _, _, pn, hm => by cases hm
  | c :: cs, p, i, h, pn, hm => by
    obtain ⟨h1, h2⟩ := (by simpa [lbFreeList] using h : _ ∧ _)
    rcases List.mem_append.mp (by simpa [preorderChildren] using hm) with h0 | h0
    · exact preorder_lbFree c (p ++ [i]) h1 pn h0
    · exact preorderChildren_lbFree cs p (i + 1) h2 pn h0
end

/-- An `lb`-free segment has no `tei:lb` descendants. -/
theorem lbDescendants_nil (seg : Node) (h : lbFree seg = true) : lbDescendants seg = [] := by
  unfold lbDescendants
  rw [List.filterMap_eq_nil_iff]
  intro pn hpn
  have hfree := preorder_lbFree seg [] h pn (List.mem_of_mem_drop hpn)
  cases hn : pn.2 with
  | elem tag attrs t ch tl =>
    rw [hn] at hfree
    obtain ⟨h1, _⟩ := (by simpa [lbFree] using hfree : _ ∧ _)
    by_cases heq : tag = teiTag "lb"
    · rw [heq] at h1
      have : strEndsWith (teiTag "lb") "lb" = true := by decide
      rw [this] at h1; cases h1
    · simp [hn, tagOf, heq]
  | comment t tl => simp [hn, tagOf]
  | procInstr t tl => simp [hn, tagOf]
  | entity nm tl => simp [hn, tagOf]

/-- The children of an `lb`-free node form an `lb`-free list. -/
theorem lbFreeList_childrenOf (n : Node) (h : lbFree n = true) :
    lbFreeList (childrenOf n) = true := by
  cases n with
  | elem tag attrs t ch tl => exact ((by simpa [lbFree] using h : _ ∧ _)).2
  | comment t tl => rfl
  | procInstr t tl => rfl
  | entity nm tl => rfl

/-- C5: For every segment containing non-whitespace text (element text or
tail text, trimmed) before its first internal `lb` marker, and for which at
least one `lb` precedes the segment in full document order, the nearest
preceding `lb` is used as the start instead of any internal candidate. -/
theorem c5_preceding_override (root : Node) (p : List Nat) (seg plb : Node)
    (hseg : subtreeAt root p = some seg)
    (htext : has_text_before_internal_lb seg = true)
    (hprev : precedingLb root p = some plb) :
    compute_location_for_seg root p = .ok (pyCompose (attrGet plb "n") (lastLbNOpt seg)) := by
  have htxt : pyTruthyStr (text_before_first_lb seg) = true := htext
  have h0 : first_lb_child_before_content seg = .ok none := by
    simp [first_lb_child_before_content, htxt]
  have hres : resolveStartLb seg (some plb) = .ok (some plb) := by
    simp [resolveStartLb, h0, htext, bind, Except.bind, pure, Except.pure]
  have hcore : compute_location_core seg (some plb)
      = .ok (pyCompose (lbNOpt (some plb)) (lastLbNOpt seg)) := by
    simp [compute_location_core, hres, bind, Except.bind, pure, Except.pure]
  simp [compute_location_for_seg, hseg, hprev, hcore, lbNOpt]

/-- Witness for C5 at the reference scenario: segment preceded by
`lb n="10"`, leading text, then `lb n="11"` resolves to `"10 - 11"`. -/
theorem c5_preceding_override_witness :
    compute_location_for_seg docTextFirst [1] = .ok "10 - 11" :=
  c5_preceding_override docTextFirst [1] segTextFirst lbTen rfl rfl rfl

/-- C6: For every segment, with `s` the resolved start label and `e` the
resolved end label (the `n` value of the segment's last `lb` descendant),
`compute_location_for_seg` returns the empty string when both are empty, the
non-empty one when exactly one is empty, `s` when `s` equals `e`, and
`"s - e"` when both are non-empty and different. -/
theorem c6_label_composition (root : Node) (p : List Nat) (seg : Node) (lopt : Option Node)
    (hseg : subtreeAt root p = some seg)
    (hstart : resolveStartLb seg (precedingLb root p) = .ok lopt) :
    compute_location_for_seg root p = .ok (claimCompose (lbNOpt lopt) (lastLbNOpt seg)) := by
  have hcore : compute_location_core seg (precedingLb root p)
      = .ok (pyCompose (lbNOpt lopt) (lastLbNOpt seg)) := by
    simp [compute_location_core, hstart, bind, Except.bind, pure, Except.pure]
  rw [pyCompose_eq_claimCompose] at hcore
  simp [compute_location_for_seg, hseg, hcore]

/-- Witness for C6 at the single-marker scenario: a segment containing only
`lb n="5"` resolves to `"5"`, the shared start and end label, undoubled. -/
theorem c6_label_composition_witness :
    resolveStartLb segSingleLb (precedingLb segSingleLb []) = .ok (some lbFive) ∧
    compute_location_for_seg segSingleLb [] = .ok "5" :=
  ⟨rfl, c6_label_composition segSingleLb [] segSingleLb (some lbFive) rfl rfl⟩

/-- C9: For every segment with non-whitespace text before its first internal
`lb` but no `lb` preceding it anywhere in the document, the result is just the
`n` value of the segment's last `lb` descendant (or the empty string if there
is none); the internal first `lb` is not used as a start label. -/
theorem c9_text_no_preceding (root : Node) (p : List Nat) (seg : Node)
    (hseg : subtreeAt root p = some seg)
    (htext : has_text_before_internal_lb seg = true)
    (hprev : precedingLb root p = none) :
    compute_location_for_seg root p = .ok ((lastLbNOpt seg).getD "") := by
  have htxt : pyTruthyStr (text_before_first_lb seg) = true := htext
  have h0 : first_lb_child_before_content seg = .ok none := by
    simp [first_lb_child_before_content, htxt]
  have hres : resolveStartLb seg none = .ok none := by
    simp [resolveStartLb, h0, htext, bind, Except.bind, pure, Except.pure]
  have hcomp : pyCompose (lbNOpt none) (lastLbNOpt seg) = (lastLbNOpt seg).getD "" := by
    cases he : lastLbNOpt seg with
    | none => simp [pyCompose, lbNOpt, pyFalsy]
    | some s =>
      cases hs : pyTruthyStr s with
      | false =>
        have : s = "" := by
          cases hd : s.data with
          | nil => exact String.ext hd
          | cons a l => rw [pyTruthyStr, hd] at hs; cases hs
        simp [pyCompose, lbNOpt, pyFalsy, this]
      | true =>
        have hemp : pyTruthyStr "" = false := rfl
        simp [pyCompose, lbNOpt, pyFalsy, hs, hemp]
  have hcore : compute_location_core seg none
      = .ok (pyCompose (lbNOpt none) (lastLbNOpt seg)) := by
    simp [compute_location_core, hres, bind, Except.bind, pure, Except.pure]
  rw [hcomp] at hcore
  simp [compute_location_for_seg, hseg, hprev, hcore]

/-- Witness for C9: a document whose only content is a segment with leading
text and an internal `lb n="7"` resolves to `"7"` alone. -/
theorem c9_text_no_preceding_witness :
    compute_location_for_seg docTextNoPreceding [0] = .ok "7" :=
  c9_text_no_preceding docTextNoPreceding [0] segTextNoPreceding rfl rfl rfl

/-- C4: For every segment with no non-whitespace text before its first
internal `lb`, the structural markers `pb`, `note` and `milestone` (as well as
comments and processing instructions) occurring before that `lb` among the
children are transparent: the internal `lb` is selected as the start
candidate, regardless of what precedes the segment. -/
theorem c4_transparent_markers (root : Node) (p : List Nat) (seg lbc : Node)
    (pre rest : List Node)
    (hseg : subtreeAt root p = some seg)
    (hchildren : childrenOf seg = pre ++ lbc :: rest)
    (hpre : ∀ c ∈ pre, isTransparentChild c = true)
    (hlb : isLbStartChild lbc = true)
    (htext : has_text_before_internal_lb seg = false) :
    compute_location_for_seg root p = .ok (pyCompose (attrGet lbc "n") (lastLbNOpt seg)) := by
  have htxt : pyTruthyStr (text_before_first_lb seg) = false := htext
  have h0 : first_lb_child_before_content seg = .ok (some lbc) := by
    rw [first_lb_child_before_content, htxt]
    simp only [Bool.false_eq_true, if_false]
    rw [hchildren, firstLbChildLoop_append_transparent pre (lbc :: rest) hpre,
      firstLbChildLoop_lb lbc rest hlb]
  have hres : resolveStartLb seg (precedingLb root p) = .ok (some lbc) := by
    simp [resolveStartLb, h0, htext, bind, Except.bind, pure, Except.pure]
  have hcore : compute_location_core seg (precedingLb root p)
      = .ok (pyCompose (lbNOpt (some lbc)) (lastLbNOpt seg)) := by
    simp [compute_location_core, hres, bind, Except.bind, pure, Except.pure]
  simp [compute_location_for_seg, hseg, hcore, lbNOpt]

/-- Witness for C4 at the milestone scenario: a segment preceded by
`lb n="20"`, starting with a `milestone` and then `lb n="21"`, resolves to
`"21"`. -/
theorem c4_transparent_markers_witness :
    compute_location_for_seg docMilestoneFirst [1] = .ok "21" :=
  c4_transparent_markers docMilestoneFirst [1] segMilestoneFirst lbTwentyOne
    [.elem (teiTag "milestone") [("unit", "section"), ("n", "X")] none [] none] []
    rfl rfl (by decide) (by decide) rfl

/-- C10: For every segment all of whose children are comments, processing
instructions or proper elements (no entity references with their non-string
tags), the resolver terminates with a string result and the raise branch of
`_first_lb_child_before_content` is not taken. -/
theorem c10_no_raise_on_string_tags (root : Node) (p : List Nat) (seg : Node)
    (hseg : subtreeAt root p = some seg)
    (hch : ∀ c ∈ childrenOf seg, isEntityNode c = false) :
    (compute_location_for_seg root p).isOk = true := by
  have hloop : ∀ cs, (∀ c ∈ cs, isEntityNode c = false) →
      (firstLbChildLoop cs).isOk = true := by
    intro cs
    induction cs with
    | nil => intro _; rfl
    | cons c cs ih =>
      intro h
      have htl := ih (fun x hx => h x (List.mem_cons_of_mem c hx))
      cases c with
      | comment t tl => simpa [firstLbChildLoop] using htl
      | procInstr t tl => simpa [firstLbChildLoop] using htl
      | elem tag attrs t ch tl =>
        by_cases htr : (strEndsWith tag "\x7dpb" || strEndsWith tag "\x7dnote"
            || strEndsWith tag "\x7dmilestone") = true
        · simpa [firstLbChildLoop, htr] using htl
        · by_cases hl : strEndsWith tag "\x7dlb" = true
          · simp only [firstLbChildLoop]
            rw [if_neg htr, if_pos hl]
            rfl
          · simp only [firstLbChildLoop]
            rw [if_neg htr, if_neg hl]
            rfl
      | entity nm tl =>
        have := h (.entity nm tl) (List.mem_cons_self _ _)
        simp [isEntityNode] at this
  have hfirst : (first_lb_child_before_content seg).isOk = true := by
    rw [first_lb_child_before_content]
    cases htxt : pyTruthyStr (text_before_first_lb seg) with
    | true => rfl
    | false => simpa using hloop (childrenOf seg) hch
  have hcore : (compute_location_core seg (precedingLb root p)).isOk = true := by
    rw [compute_location_core, resolveStartLb]
    cases hf : first_lb_child_before_content seg with
    | error e => rw [hf] at hfirst; cases hfirst
    | ok lb0 =>
      cases lb0 with
      | none =>
        cases hft : has_text_before_internal_lb seg <;>
          cases hfd : firstLbDesc seg <;>
            simp [hf, hft, hfd, bind, Except.bind, pure, Except.pure, Except.isOk, Except.toBool]
      | some l =>
        cases hft : has_text_before_internal_lb seg <;>
          cases hpv : precedingLb root p <;>
            simp [hf, hft, hpv, bind, Except.bind, pure, Except.pure, Except.isOk, Except.toBool]
  simpa [compute_location_for_seg, hseg] using hcore

/-- Witness for C10: the milestone-scenario segment has no entity child, and
its resolution succeeds. -/
theorem c10_no_raise_on_string_tags_witness :
    (∀ c ∈ childrenOf segMilestoneFirst, isEntityNode c = false) ∧
    (compute_location_for_seg docMilestoneFirst [1]).isOk = true :=
  ⟨by decide, c10_no_raise_on_string_tags docMilestoneFirst [1] segMilestoneFirst rfl (by decide)⟩

/-- C7: For every segment with no `lb` descendants (no subtree node tagged as
a line-break marker) and no `lb` preceding it in document order, the resolver
returns the empty string without raising, and the collector still appends
exactly one output record for that segment. -/
theorem c7_empty_location_recoverable (root : Node) (p : List Nat) (seg : Node) (src : String)
    (hseg : subtreeAt root p = some seg)
    (hfree : lbFree seg = true)
    (hprev : precedingLb root p = none)
    (hsegs : excerptSegs root = [(p, seg)]) :
    compute_location_for_seg root p = .ok "" ∧
    processDoc src root = .ok [mkRecord src root (p, seg) ""] := by
  have hlast : lastLbNOpt seg = some "" := by
    rw [lastLbNOpt, lastLbDesc, lbDescendants_nil seg hfree]; rfl
  have hfd : firstLbDesc seg = none := by
    rw [firstLbDesc, lbDescendants_nil seg hfree]; rfl
  have hpc : pyCompose (lbNOpt none) (lastLbNOpt seg) = "" := by rw [hlast]; rfl
  have hcore : compute_location_core seg none = .ok "" := by
    cases htxt : pyTruthyStr (text_before_first_lb seg) with
    | true =>
      have h0 : first_lb_child_before_content seg = .ok none := by
        simp [first_lb_child_before_content, htxt]
      have htext : has_text_before_internal_lb seg = true := htxt
      have hres : resolveStartLb seg none = .ok none := by
        simp [resolveStartLb, h0, htext, bind, Except.bind, pure, Except.pure]
      simp [compute_location_core, hres, bind, Except.bind, pure, Except.pure, hpc]
    | false =>
      have hent : ∀ nm etl, Node.entity nm etl ∈ childrenOf seg → False := by
        intro nm etl hm
        cases seg with
        | elem tag attrs t ch tl =>
          have hht := has_text_of_entity_child tag attrs t ch tl nm etl hfree
            (by simpa [childrenOf] using hm)
          have hht2 : pyTruthyStr (text_before_first_lb (Node.elem tag attrs t ch tl)) = true := hht
          rw [htxt] at hht2
          cases hht2
        | comment t tl => simp [childrenOf] at hm
        | procInstr t tl => simp [childrenOf] at hm
        | entity nm2 tl => simp [childrenOf] at hm
      have hloopn : firstLbChildLoop (childrenOf seg) = .ok none :=
        firstLbChildLoop_ok_none (childrenOf seg) (lbFreeList_childrenOf seg hfree) hent
      have h0 : first_lb_child_before_content seg = .ok none := by
        simp [first_lb_child_before_content, htxt, hloopn]
      have htext : has_text_before_internal_lb seg = false := htxt
      have hres : resolveStartLb seg none = .ok none := by
        simp [resolveStartLb, h0, htext, hfd, bind, Except.bind, pure, Except.pure]
      simp [compute_location_core, hres, bind, Except.bind, pure, Except.pure, hpc]
  constructor
  · simp [compute_location_for_seg, hseg, hprev, hcore]
  · rw [processDoc, hsegs]
    simp [collectRecords, hprev, hcore, bind, Except.bind, pure, Except.pure]

/-- Witness for C7: the no-marker scenario resolves to the empty string and
still yields its single record. -/
theorem c7_empty_location_recoverable_witness :
    compute_location_for_seg docNoLbs [0] = .ok "" ∧
    processDoc "f2.xml" docNoLbs = .ok [mkRecord "f2.xml" docNoLbs ([0], segNoLbs) ""] :=
  c7_empty_location_recoverable docNoLbs [0] segNoLbs "f2.xml" rfl (by decide) rfl rfl

/-- C8: the resolver is deterministic and side-effect free on the document
tree.  In its state-passing form the document component is returned
unchanged (the source performs only reads: attribute lookups, XPath queries,
text walks), and a second call on the returned tree yields the same string. -/
theorem c8_pure_resolution (root : Node) (p : List Nat) :
    (compute_location_call root p).2 = root ∧
    (compute_location_call (compute_location_call root p).2 p).1
      = (compute_location_call root p).1 :=
  ⟨rfl, rfl⟩

/-- C1 (behavior of the code at the multi-edition scenario): on the document
of `test_group_ranges_by_edref_with_preceding_lb` the implementation returns
the single range `"1b4 - 2a2"` — it performs no grouping by `edRef` — whereas
the specification and the repository's own test expect
`"1b4 - 1b2; 2a1 - 2a2"`. -/
theorem c1_grouping_code_eval :
    compute_location_for_seg docEdRef [1] = .ok "1b4 - 2a2" ∧
    "1b4 - 2a2" ≠ "1b4 - 1b2; 2a1 - 2a2" :=
  ⟨rfl, by decide⟩

/-- C2 counterexample: a resolution failure in the first document's first
segment makes `process_tei_files` abort with the raised error, so no record is
emitted for the well-formed later segment or the well-formed later document,
although the later document alone processes fine. -/
theorem c2_failure_aborts_counterexample :
    process_tei_files [("a.xml", some docRaising), ("b.xml", some docAfterRaise)]
      = .error (.attributeError "broken") ∧
    (process_tei_files [("b.xml", some docAfterRaise)]).isOk = true :=
  ⟨rfl, rfl⟩

/-- C2 (amended): a resolution failure raised while processing a segment of a
document propagates out of `process_tei_files`, discarding the whole run;
later segments and documents are not processed. -/
theorem c2_error_propagates (source : String) (root : Node) (e : PyErr)
    (rest : List (String × Option Node))
    (h : processDoc source root = .error e) :
    process_tei_files ((source, some root) :: rest) = .error e := by
  simp only [process_tei_files, h]
  rfl

/-- Witness for the amended C2 at the concrete raising document. -/
theorem c2_error_propagates_witness :
    process_tei_files [("a.xml", some docRaising), ("c.xml", some docAfterRaise)]
      = .error (.attributeError "broken") :=
  c2_error_propagates "a.xml" docRaising (.attributeError "broken")
    [("c.xml", some docAfterRaise)] rfl

/-- Every record emitted by the per-segment loop is the record built for one
of the processed segments. -/
theorem collectRecords_mem (source : String) (root : Node) (l : List (List Nat × Node)) :
    ∀ rs, collectRecords source root l = .ok rs →
    ∀ r ∈ rs, ∃ pn, pn ∈ l ∧ ∃ loc, r = mkRecord source root pn loc := by
  induction l with
  | nil =>
    intro rs h r hr
    simp [collectRecords] at h
    subst h
    cases hr
  | cons pn rest ih =>
    intro rs h r hr
    rw [collectRecords] at h
    cases hloc : compute_location_core pn.2 (precedingLb root pn.1) with
    | error e => rw [hloc] at h; simp [bind, Except.bind] at h
    | ok loc =>
      rw [hloc] at h
      cases hrest : collectRecords source root rest with
      | error e => rw [hrest] at h; simp [bind, Except.bind] at h
      | ok rs2 =>
        rw [hrest] at h
        simp [bind, Except.bind, pure, Except.pure] at h
        subst h
        rcases List.mem_cons.mp hr with h1 | h1
        · exact ⟨pn, List.mem_cons_self _ _, loc, h1⟩
        · obtain ⟨pn2, hm, loc2, he⟩ := ih rs2 hrest r h1
          exact ⟨pn2, List.mem_cons_of_mem _ hm, loc2, he⟩

/-- C3 (amended): the `xml_content` of every emitted record is exactly the
fixed TEI wrapper around the minified serialized segment; no separately
serialized preceding marker is included, even when the resolver selected one
outside the segment. -/
theorem c3_xml_content_wrapper_only (source : String) (root : Node) (rs : List Record)
    (h : processDoc source root = .ok rs) (r : Record) (hr : r ∈ rs) :
    ∃ pn, pn ∈ excerptSegs root ∧
      r.xml_content = "<TEI xmlns='http://www.tei-c.org/ns/1.0'>"
        ++ pyStrip (serializeNode true false pn.2) ++ "</TEI>" := by
  obtain ⟨pn, hmem, loc, rfl⟩ := collectRecords_mem source root (excerptSegs root) rs h r hr
  exact ⟨pn, hmem, rfl⟩

/-- Witness for the amended C3 at the text-before-marker scenario (where the
resolved start marker lies outside the segment). -/
theorem c3_xml_content_wrapper_only_witness :
    processDoc "f.xml" docTextFirst = .ok [recordTextFirst] ∧
    recordTextFirst.xml_content = "<TEI xmlns='http://www.tei-c.org/ns/1.0'>"
      ++ pyStrip (serializeNode true false segTextFirst) ++ "</TEI>" := by
  refine ⟨rfl, ?_⟩
  obtain ⟨pn, hmem, heq⟩ := c3_xml_content_wrapper_only "f.xml" docTextFirst
    [recordTextFirst] rfl recordTextFirst (List.mem_singleton.mpr rfl)
  have hpn : pn = ([1], segTextFirst) := by
    have hsegs : excerptSegs docTextFirst = [([1], segTextFirst)] := rfl
    rw [hsegs] at hmem
    exact List.mem_singleton.mp hmem
  rw [hpn] at heq
  exact heq

/-- C3 counterexample: in the text-before-marker scenario the resolver does
select the preceding `lb n="10"` (the location reads `"10 - 11"`), yet the
emitted `xml_content` contains no serialization of that marker — neither with
its tail, nor bare, nor in namespace-declaring root form. -/
theorem c3_marker_not_in_xml_content :
    (processDoc "f.xml" docTextFirst).toOption.map
        (List.map (fun r => (r.location,
          strContains r.xml_content (serializeNode false true lbTen),
          strContains r.xml_content (serializeNode false false lbTen),
          strContains r.xml_content (serializeNode true false lbTen))))
      = some [("10 - 11", false, false, false)] := rfl
